import Mathlib

/-!
Shallow embedding of `password_complexity_checker.py` — a password strength
analyzer built from twelve boolean criteria, an entropy estimate and a
threshold classifier — together with proofs about its behaviour.
-/

namespace PasswordComplexityChecker

/-- Models Python `str.lower()` as character-wise ASCII case folding,
matching the checker's use on ASCII candidates. -/
def lowerStr (s : String) : String := ⟨s.data.map Char.toLower⟩

/-- Models Python substring containment `needle in hay` on character lists:
`needle` is a prefix of `hay` or occurs further right. -/
def containsSub (needle : List Char) : List Char → Bool
  | [] => needle.isPrefixOf []
  | c :: rest => needle.isPrefixOf (c :: rest) || containsSub needle rest

/-- Python `needle in hay` for strings. -/
def strIn (needle hay : String) : Bool := containsSub needle.data hay.data

/-- Regex class `[a-z]` applied to one character. -/
def isLowerAlpha (c : Char) : Bool := decide ('a' ≤ c) && decide (c ≤ 'z')

/-- Regex class `[A-Z]` applied to one character. -/
def isUpperAlpha (c : Char) : Bool := decide ('A' ≤ c) && decide (c ≤ 'Z')

/-- Regex class `\d` applied to one character (ASCII digits). -/
def isDigitChar (c : Char) : Bool := decide ('0' ≤ c) && decide (c ≤ '9')

/-- The fixed symbol set of the `special_char` criterion. -/
def specialChars : List Char :=
  ['!', '@', '#', '$', '%', '^', '&', '*', '(', ')', ',', '.', '?', '\"',
   ':', '\x7b', '\x7d', '|', '<', '>']

/-- The default common-password list built into `_load_common_passwords`. -/
def defaultCommonPasswords : List String :=
  ["password", "123456", "qwerty", "letmein", "welcome",
   "admin", "12345678", "123456789", "123123", "111111"]

/-- The ten fixed reference sequences of `_has_sequential_chars`. -/
def sequences : List String :=
  ["abcdefghijklmnopqrstuvwxyz",
   "zyxwvutsrqponmlkjihgfedcba",
   "01234567890",
   "9876543210",
   "qwertyuiop",
   "poiuytrewq",
   "asdfghjkl",
   "lkjhgfdsa",
   "zxcvbnm",
   "mnbvcxz"]

/-- `_has_sequential_chars`: some full reference sequence occurs in the
lowercased password. -/
def has_sequential_chars (pw : String) : Bool :=
  sequences.any (fun seq => strIn seq (lowerStr pw))

/-- Scanner for the regex `(.)\1\1` run by `_has_repeated_chars`: three
consecutive equal characters; `.` does not match a newline. -/
def tripleRun : List Char → Bool
  | a :: b :: c :: rest =>
      (!(a == '\n') && a == b && b == c) || tripleRun (b :: c :: rest)
  | _ => false

/-- `_has_repeated_chars`: the regex `(.)\1\1` searched in the RAW password
(the source does not lowercase here). -/
def has_repeated_chars (pw : String) : Bool := tripleRun pw.data

/-- Python `email.split("@")[0]`: everything before the first `@`. -/
def localPart (email : String) : String :=
  ⟨email.data.takeWhile (fun c => c != '@')⟩

/-- `_contains_personal_info`: username or email local part (lowercased)
occurs in the lowercased password; vacuously false with no context. -/
def contains_personal_info (username email pw : String) : Bool :=
  if username = "" ∧ email = "" then false
  else
    ((if username = "" then [] else [lowerStr username]) ++
     (if email = "" then [] else [lowerStr (localPart email)])).any
      (fun info => strIn info (lowerStr pw))

/-- `_is_similar_to_old`: case-insensitive equality with, or containment of,
the old password; false when there is no old password. -/
def is_similar_to_old (old pw : String) : Bool :=
  if old = "" then false
  else (lowerStr pw == lowerStr old) || strIn (lowerStr old) (lowerStr pw)

/-- `_contains_dictionary_word`: with the word file available, some stripped,
lowercased entry of length > 3 occurs in the lowercased password; with the
file unavailable (`none`) the answer is `false` without error. -/
def contains_dictionary_word (dict : Option (List String)) (pw : String) : Bool :=
  match dict with
  | none => false
  | some words =>
      (words.map (fun w => lowerStr w.trim)).any
        (fun w => decide (w.length > 3) && strIn w (lowerStr pw))

/-- The four keyboard rows of `_has_keyboard_pattern`. -/
def keyboardRows : List String :=
  ["qwertyuiop", "asdfghjkl", "zxcvbnm", "1234567890"]

/-- The 4-character windows `row[i:i+4]` for `i in range(len(row) - 3)`. -/
def rowWindows (row : String) : List (List Char) :=
  (List.range (row.length - 3)).map (fun i => (row.data.drop i).take 4)

/-- `_has_keyboard_pattern`: some 4-character window of a keyboard row,
forward or reversed, occurs in the lowercased password. -/
def has_keyboard_pattern (pw : String) : Bool :=
  keyboardRows.any (fun row =>
    (rowWindows row).any (fun w =>
      containsSub w (lowerStr pw).data || containsSub w.reverse (lowerStr pw).data))

/-- Alphabet pool size of `calculate_entropy`: 26 + 26 + 10 + 32 according to
which of the four character classes occur in the password. -/
def poolSize (pw : String) : Nat :=
  (if pw.data.any isLowerAlpha then 26 else 0) +
  (if pw.data.any isUpperAlpha then 26 else 0) +
  (if pw.data.any isDigitChar then 10 else 0) +
  (if pw.data.any (fun c => !(isLowerAlpha c || isUpperAlpha c || isDigitChar c))
     then 32 else 0)

/-- `calculate_entropy`: `log2(pool_size ** len(password))` bits, and `0`
when the pool is empty. -/
noncomputable def calculate_entropy (pw : String) : ℝ :=
  if poolSize pw = 0 then 0
  else Real.logb 2 ((poolSize pw : ℝ) ^ pw.length)

/-- The context handed to the constructor: the optional user data plus the
two externally loaded reference lists (`common_passwords.txt` contents or
the default list; `/usr/share/dict/words` contents, or `none` when that
file is unavailable). -/
structure Context where
  username : String
  email : String
  old_password : String
  common_passwords : List String
  dict_words : Option (List String)

/-- `_initialize_criteria`: the twelve named checks, in source order, each
`true` when the check passes. -/
def criteriaList (pw : String) (ctx : Context) : List (String × Bool) :=
  [("length", decide (pw.length ≥ 12)),
   ("uppercase", pw.data.any isUpperAlpha),
   ("lowercase", pw.data.any isLowerAlpha),
   ("number", pw.data.any isDigitChar),
   ("special_char", pw.data.any (fun c => specialChars.contains c)),
   ("not_common", !(ctx.common_passwords.contains (lowerStr pw))),
   ("no_sequential", !(has_sequential_chars pw)),
   ("no_repeated", !(has_repeated_chars pw)),
   ("no_personal_info", !(contains_personal_info ctx.username ctx.email pw)),
   ("not_similar_old", !(is_similar_to_old ctx.old_password pw)),
   ("no_dict_words", !(contains_dictionary_word ctx.dict_words pw)),
   ("no_keyboard_patterns", !(has_keyboard_pattern pw))]

/-- `_get_strength_label`: the ordered threshold ladder over score and
entropy, first satisfied row wins. -/
noncomputable def get_strength_label (score : Nat) (entropy : ℝ) : String :=
  if score ≥ 10 ∧ entropy ≥ 75 then "excellent"
  else if score ≥ 8 ∧ entropy ≥ 60 then "very_strong"
  else if score ≥ 6 ∧ entropy ≥ 45 then "strong"
  else if score ≥ 4 ∧ entropy ≥ 30 then "moderate"
  else if score ≥ 2 then "weak"
  else "very_weak"

/-- The result dictionary returned by `analyze`. -/
structure AnalysisResult where
  score : Nat
  total_possible : Nat
  strength : String
  entropy : ℝ
  is_strong : Bool
  failed_checks : List String

/-- `analyze`: score is the number of passing checks; `is_strong` compares
the score against `total * 0.75` (exact in ℚ, as it is in binary floating
point for these small values); `failed_checks` lists the names of failing
checks in source order. -/
noncomputable def analyze (pw : String) (ctx : Context) : AnalysisResult :=
  { score := (criteriaList pw ctx).countP (fun kv => kv.2)
    total_possible := (criteriaList pw ctx).length
    strength := get_strength_label
      ((criteriaList pw ctx).countP (fun kv => kv.2)) (calculate_entropy pw)
    entropy := calculate_entropy pw
    is_strong := decide
      ((((criteriaList pw ctx).countP (fun kv => kv.2) : Nat) : ℚ) ≥
        (((criteriaList pw ctx).length : Nat) : ℚ) * (3 / 4))
    failed_checks :=
      ((criteriaList pw ctx).filter (fun kv => !kv.2)).map (fun kv => kv.1) }

theorem analyze_score (pw : String) (ctx : Context) :
    (analyze pw ctx).score = (criteriaList pw ctx).countP (fun kv => kv.2) := rfl

theorem analyze_total (pw : String) (ctx : Context) :
    (analyze pw ctx).total_possible = 12 := rfl

theorem analyze_failed (pw : String) (ctx : Context) :
    (analyze pw ctx).failed_checks =
      ((criteriaList pw ctx).filter (fun kv => !kv.2)).map (fun kv => kv.1) := rfl

theorem analyze_is_strong (pw : String) (ctx : Context) :
    (analyze pw ctx).is_strong = decide
      ((((criteriaList pw ctx).countP (fun kv => kv.2) : Nat) : ℚ) ≥
        ((12 : Nat) : ℚ) * (3 / 4)) := rfl

theorem criteriaList_length (pw : String) (ctx : Context) :
    (criteriaList pw ctx).length = 12 := rfl

/-! ### Substring containment: `containsSub` decides list infixhood -/

theorem containsSub_iff (n : List Char) : ∀ h : List Char,
    containsSub n h = true ↔ n <:+: h
  | [] => by
      simp [containsSub, List.isPrefixOf_iff_prefix]
  | c :: rest => by
      rw [containsSub]
      simp [List.isPrefixOf_iff_prefix, containsSub_iff n rest, List.infix_cons_iff]

theorem strIn_iff (n h : String) : strIn n h = true ↔ n.data <:+: h.data :=
  containsSub_iff n.data h.data

/-! ### The triple-repeat scanner matches the regex semantics -/

theorem tripleRun_iff : ∀ l : List Char,
    tripleRun l = true ↔ ∃ c : Char, c ≠ '\n' ∧ [c, c, c] <:+: l
  | [] => by simp [tripleRun]
  | [a] => by simp [tripleRun, List.infix_cons_iff]
  | [a, b] => by simp [tripleRun, List.infix_cons_iff, List.cons_prefix_cons]
  | a :: b :: c :: rest => by
      rw [tripleRun]
      simp only [Bool.or_eq_true, Bool.and_eq_true, Bool.not_eq_true', beq_iff_eq,
        beq_eq_false_iff_ne, tripleRun_iff (b :: c :: rest)]
      constructor
      · rintro (⟨⟨hn, hab⟩, hbc⟩ | ⟨d, hd, hinf⟩)
        · exact ⟨a, hn, [], rest, by simp [hab, hbc]⟩
        · exact ⟨d, hd, List.infix_cons_iff.mpr (Or.inr hinf)⟩
      · rintro ⟨d, hd, hinf⟩
        rcases List.infix_cons_iff.mp hinf with hpre | hinf'
        · rcases List.cons_prefix_cons.mp hpre with ⟨ha, hpre2⟩
          rcases List.cons_prefix_cons.mp hpre2 with ⟨hb, hpre3⟩
          rcases List.cons_prefix_cons.mp hpre3 with ⟨hc, _⟩
          exact Or.inl ⟨⟨ha ▸ hd, ha.symm.trans hb⟩, hb.symm.trans hc⟩
        · exact Or.inr ⟨d, hd, hinf'⟩

theorem length_filter_not (l : List (String × Bool)) :
    (l.filter (fun kv => !kv.2)).length = l.length - l.countP (fun kv => kv.2) := by
  induction l with
  | nil => rfl
  | cons kv rest ih =>
      have hle : rest.countP (fun kv => kv.2) ≤ rest.length :=
        List.countP_le_length (fun kv : String × Bool => kv.2)
      rcases kv with ⟨k, b⟩
      cases b
      all_goals simp [List.filter_cons, List.countP_cons, ih]
      all_goals omega

/-- C1: for every candidate and context, the result's `is_strong` field is
true exactly when the score is at least 9 of 12; entropy plays no role, the
criterion being a pure function of the score. -/
theorem is_strong_iff_score_ge_nine (pw : String) (ctx : Context) :
    (analyze pw ctx).is_strong = true ↔ 9 ≤ (analyze pw ctx).score := by
  rw [analyze_is_strong, analyze_score, decide_eq_true_iff, ge_iff_le]
  rw [show (((12 : Nat) : ℚ)) * (3 / 4) = ((9 : Nat) : ℚ) from by norm_num, Nat.cast_le]

/-- C2: for every candidate and context, the score is at most 12 (hence in
[0,12]), `total_possible` is the constant 12, and the failed-checks list has
length `12 - score`. -/
theorem analyze_invariants (pw : String) (ctx : Context) :
    (analyze pw ctx).score ≤ 12 ∧ (analyze pw ctx).total_possible = 12 ∧
      (analyze pw ctx).failed_checks.length = 12 - (analyze pw ctx).score := by
  refine ⟨?_, rfl, ?_⟩
  · rw [analyze_score]
    calc (criteriaList pw ctx).countP (fun kv => kv.2)
        ≤ (criteriaList pw ctx).length :=
          List.countP_le_length (fun kv : String × Bool => kv.2)
      _ = 12 := criteriaList_length pw ctx
  · rw [analyze_failed, analyze_score, List.length_map, length_filter_not,
      criteriaList_length]

/-- C5: the sequential-run detector fires exactly when one of the ten full
reference sequences is a substring of the lowercased candidate; a short
slice of a reference sequence, such as `"abc"` (a genuine infix of the
alphabet sequence), does not trigger it on its own. -/
theorem has_sequential_chars_characterization :
    (∀ pw : String, has_sequential_chars pw = true ↔
        ∃ seq ∈ sequences, seq.data <:+: (lowerStr pw).data) ∧
      ("abc" : String).data <:+: ("abcdefghijklmnopqrstuvwxyz" : String).data ∧
      has_sequential_chars "abc" = false := by
  refine ⟨fun pw => ?_, by decide, by decide⟩
  rw [has_sequential_chars, List.any_eq_true]
  constructor
  · rintro ⟨seq, hmem, hin⟩
    exact ⟨seq, hmem, (strIn_iff seq (lowerStr pw)).mp hin⟩
  · rintro ⟨seq, hmem, hinf⟩
    exact ⟨seq, hmem, (strIn_iff seq (lowerStr pw)).mpr hinf⟩

/-- C8: the keyboard-pattern detector fires exactly when some 4-character
window of one of the four keyboard rows, forward or reversed, is a
substring of the lowercased candidate, the window sliding over every
position of each row. -/
theorem has_keyboard_pattern_characterization (pw : String) :
    has_keyboard_pattern pw = true ↔
      ∃ row ∈ keyboardRows, ∃ i, i + 4 ≤ row.length ∧
        ((row.data.drop i).take 4 <:+: (lowerStr pw).data ∨
          ((row.data.drop i).take 4).reverse <:+: (lowerStr pw).data) := by
  rw [has_keyboard_pattern, List.any_eq_true]
  constructor
  · rintro ⟨row, hrow, hany⟩
    rw [List.any_eq_true] at hany
    rcases hany with ⟨w, hw, hor⟩
    rw [rowWindows, List.mem_map] at hw
    rcases hw with ⟨i, hi, rfl⟩
    rw [List.mem_range] at hi
    refine ⟨row, hrow, i, by omega, ?_⟩
    simp only [Bool.or_eq_true] at hor
    rcases hor with h | h
    · exact Or.inl ((containsSub_iff _ _).mp h)
    · exact Or.inr ((containsSub_iff _ _).mp h)
  · rintro ⟨row, hrow, i, hi, hor⟩
    refine ⟨row, hrow, ?_⟩
    rw [List.any_eq_true]
    refine ⟨(row.data.drop i).take 4, ?_, ?_⟩
    · rw [rowWindows, List.mem_map]
      exact ⟨i, List.mem_range.mpr (by omega), rfl⟩
    · simp only [Bool.or_eq_true]
      rcases hor with h | h
      · exact Or.inl ((containsSub_iff _ _).mpr h)
      · exact Or.inr ((containsSub_iff _ _).mpr h)

/-! ### The empty candidate -/

theorem containsSub_nil_left (hay : List Char) : containsSub [] hay = true := by
  cases hay <;> simp [containsSub]

theorem contains_dictionary_word_empty_pw (dict : Option (List String)) :
    contains_dictionary_word dict "" = false := by
  cases dict with
  | none => rfl
  | some words =>
      rw [contains_dictionary_word, List.any_eq_false]
      intro w hw
      rcases List.mem_map.mp hw with ⟨v, _, rfl⟩
      by_cases h3 : (lowerStr v.trim).length > 3
      · have hne : (lowerStr v.trim).data ≠ [] := by
          intro hnil
          have hz : (lowerStr v.trim).length = 0 := by
            show (lowerStr v.trim).data.length = 0
            rw [hnil]
            rfl
          omega
        rcases List.exists_cons_of_ne_nil hne with ⟨c, rest, hcons⟩
        have hfalse : strIn (lowerStr v.trim) (lowerStr "") = false := by
          rw [strIn]
          have hd : (lowerStr "").data = [] := rfl
          rw [hd, hcons]
          rfl
        simp [hfalse]
      · simp [h3]

/-- C3 counterexample: the empty candidate with the default context scores 7,
not 0 — the seven pattern/context checks pass vacuously. -/
theorem analyze_empty_score_not_zero :
    (analyze "" ⟨"", "", "", defaultCommonPasswords, none⟩).score = 7 ∧
      (analyze "" ⟨"", "", "", defaultCommonPasswords, none⟩).score ≠ 0 := by
  rw [analyze_score]
  exact ⟨by decide, by decide⟩

/-- C3 amended: the empty candidate has entropy 0, and, for any context with
no username, email or prior secret whose common list does not hold the empty
string, it scores 7, failing exactly the five structural checks. -/
theorem analyze_empty_characterization (common : List String)
    (dict : Option (List String)) (hc : ("" : String) ∉ common) :
    calculate_entropy "" = 0 ∧
      (analyze "" ⟨"", "", "", common, dict⟩).score = 7 ∧
      (analyze "" ⟨"", "", "", common, dict⟩).failed_checks =
        ["length", "uppercase", "lowercase", "number", "special_char"] := by
  have hcb : common.contains ("" : String) = false := by
    have h1 : common.contains ("" : String) = List.elem "" common := rfl
    rw [h1, List.elem_eq_mem, decide_eq_false_iff_not]
    exact hc
  have hdict := contains_dictionary_word_empty_pw dict
  have hlower : lowerStr "" = "" := rfl
  have hp : poolSize "" = 0 := rfl
  refine ⟨by simp [calculate_entropy, hp], ?_, ?_⟩
  · rw [analyze_score]
    simp only [criteriaList, hlower, hcb, hdict]
    decide
  · rw [analyze_failed]
    simp only [criteriaList, hlower, hcb, hdict]
    decide

/-- C3 witness: the amended statement holds at the default common-password
list with the dictionary unavailable. -/
theorem analyze_empty_characterization_witness :
    (analyze "" ⟨"", "", "", defaultCommonPasswords, none⟩).score = 7 :=
  (analyze_empty_characterization defaultCommonPasswords none (by decide)).2.1

/-! ### The classifier ladder -/

/-- C4 counterexample: at score 8 and entropy 59 the classifier returns
"strong" — the next satisfied row is score ≥ 6 ∧ entropy ≥ 45 — not
"moderate" and not "weak" as the claim allows. -/
theorem get_strength_label_8_59 :
    get_strength_label 8 59 = "strong" ∧ get_strength_label 8 59 ≠ "moderate" ∧
      get_strength_label 8 59 ≠ "weak" := by
  have h : get_strength_label 8 59 = "strong" := by
    simp only [get_strength_label]
    rw [if_neg (by norm_num : ¬((8 : Nat) ≥ 10 ∧ (59 : ℝ) ≥ 75))]
    rw [if_neg (by norm_num : ¬((8 : Nat) ≥ 8 ∧ (59 : ℝ) ≥ 60))]
    rw [if_pos (by norm_num : ((8 : Nat) ≥ 6 ∧ (59 : ℝ) ≥ 45))]
  refine ⟨h, ?_, ?_⟩ <;> rw [h] <;> decide

/-- C4 amended: at score 8 the classifier returns "very_strong" at entropy
60, and at entropy 59 it drops to the next satisfied row, "strong", since
score ≥ 6 and entropy ≥ 45 hold there. -/
theorem get_strength_label_boundary :
    get_strength_label 8 60 = "very_strong" ∧ get_strength_label 8 59 = "strong" := by
  constructor
  · simp only [get_strength_label]
    rw [if_neg (by norm_num : ¬((8 : Nat) ≥ 10 ∧ (60 : ℝ) ≥ 75))]
    rw [if_pos (by norm_num : ((8 : Nat) ≥ 8 ∧ (60 : ℝ) ≥ 60))]
  · simp only [get_strength_label]
    rw [if_neg (by norm_num : ¬((8 : Nat) ≥ 10 ∧ (59 : ℝ) ≥ 75))]
    rw [if_neg (by norm_num : ¬((8 : Nat) ≥ 8 ∧ (59 : ℝ) ≥ 60))]
    rw [if_pos (by norm_num : ((8 : Nat) ≥ 6 ∧ (59 : ℝ) ≥ 45))]

/-! ### The entropy estimator -/

theorem data_nil_of_poolSize_eq_zero (pw : String) (h : poolSize pw = 0) :
    pw.data = [] := by
  by_contra hne
  rcases List.exists_cons_of_ne_nil hne with ⟨c, rest, hcons⟩
  have hc : c ∈ pw.data := by
    rw [hcons]
    exact List.mem_cons_self c rest
  have hor : pw.data.any isLowerAlpha = true ∨ pw.data.any isUpperAlpha = true ∨
      pw.data.any isDigitChar = true ∨
      pw.data.any
        (fun d => !(isLowerAlpha d || isUpperAlpha d || isDigitChar d)) = true := by
    by_cases e1 : isLowerAlpha c = true
    · exact Or.inl (List.any_eq_true.mpr ⟨c, hc, e1⟩)
    by_cases e2 : isUpperAlpha c = true
    · exact Or.inr (Or.inl (List.any_eq_true.mpr ⟨c, hc, e2⟩))
    by_cases e3 : isDigitChar c = true
    · exact Or.inr (Or.inr (Or.inl (List.any_eq_true.mpr ⟨c, hc, e3⟩)))
    · refine Or.inr (Or.inr (Or.inr (List.any_eq_true.mpr ⟨c, hc, ?_⟩)))
      simp only [Bool.not_eq_true] at e1 e2 e3
      simp [e1, e2, e3]
  rw [poolSize] at h
  rcases hor with h1|h1|h1|h1 <;> simp only [h1, if_true] at h <;> omega

theorem poolSize_ge_ten (pw : String) (h : poolSize pw ≠ 0) :
    10 ≤ poolSize pw := by
  rw [poolSize] at h ⊢
  split_ifs at h ⊢ <;> omega

/-- C6: for every candidate the entropy equals
`length * log2(alphabet_size)` with the 26/26/10/32 alphabet buckets, and it
is 0 exactly when the alphabet size is 0. -/
theorem calculate_entropy_characterization (pw : String) :
    calculate_entropy pw = (pw.length : ℝ) * Real.logb 2 (poolSize pw) ∧
      (calculate_entropy pw = 0 ↔ poolSize pw = 0) := by
  by_cases hp : poolSize pw = 0
  · have hdata := data_nil_of_poolSize_eq_zero pw hp
    have hlen : pw.length = 0 := by
      show pw.data.length = 0
      rw [hdata]
      rfl
    constructor
    · rw [calculate_entropy, if_pos hp, hlen]
      simp
    · simp [calculate_entropy, hp]
  · have h10 := poolSize_ge_ten pw hp
    have hdata : pw.data ≠ [] := by
      intro hnil
      apply hp
      rw [poolSize]
      simp [hnil]
    have hlen : 1 ≤ pw.length := List.length_pos.mpr hdata
    have hpool1 : (1 : ℝ) < (poolSize pw : ℝ) := by
      have : (1 : ℕ) < poolSize pw := by omega
      exact_mod_cast this
    have hlog : 0 < Real.logb 2 (poolSize pw) :=
      Real.logb_pos (by norm_num) hpool1
    have heq : calculate_entropy pw = (pw.length : ℝ) * Real.logb 2 (poolSize pw) := by
      rw [calculate_entropy, if_neg hp, Real.logb_pow]
    refine ⟨heq, ?_⟩
    rw [heq]
    constructor
    · intro h0
      exfalso
      have hpos : (0 : ℝ) < (pw.length : ℝ) * Real.logb 2 (poolSize pw) :=
        mul_pos (by exact_mod_cast hlen) hlog
      rw [h0] at hpos
      exact lt_irrefl 0 hpos
    · intro h
      exact absurd h hp

/-! ### The repeated-character detector -/

/-- C7 counterexample: the detector runs on the raw candidate, so the
mixed-case run "AAaa" does not fire it, even though its lowercasing holds a
triple run. -/
theorem has_repeated_chars_mixed_case :
    has_repeated_chars "AAaa" = false ∧ tripleRun (lowerStr "AAaa").data = true :=
  ⟨by decide, by decide⟩

/-- C7 amended: the detector takes the raw candidate and fires exactly when
some character other than a newline occurs three or more times consecutively
in it ("AAaa" therefore does not count). -/
theorem has_repeated_chars_characterization :
    (∀ pw : String, has_repeated_chars pw = true ↔
        ∃ c : Char, c ≠ '\n' ∧ [c, c, c] <:+: pw.data) ∧
      has_repeated_chars "AAaa" = false :=
  ⟨fun pw => tripleRun_iff pw.data, by decide⟩

/-! ### Missing dictionary resource -/

/-- C9: with the dictionary unavailable the dictionary-word detector returns
false for every candidate, the no-dictionary-word criterion never fails, and
`analyze` still returns a full 12-check result. -/
theorem dictionary_unavailable_graceful (pw u e o : String) (common : List String) :
    contains_dictionary_word none pw = false ∧
      (analyze pw ⟨u, e, o, common, none⟩).total_possible = 12 ∧
      "no_dict_words" ∉ (analyze pw ⟨u, e, o, common, none⟩).failed_checks := by
  refine ⟨rfl, rfl, ?_⟩
  rw [analyze_failed]
  intro hmem
  rcases List.mem_map.mp hmem with ⟨kv, hkv, hfst⟩
  rcases List.mem_filter.mp hkv with ⟨hin, hfail⟩
  simp only [criteriaList, List.mem_cons, List.not_mem_nil, or_false] at hin
  rcases hin with rfl|rfl|rfl|rfl|rfl|rfl|rfl|rfl|rfl|rfl|rfl|rfl <;>
    simp_all [contains_dictionary_word]

/-! ### Degenerate email local part -/

/-- C10: an email whose first character is `@` has an empty local part, the
empty string is a substring of everything, so the personal-info detector
fires for every candidate and the no-personal-info check always fails. -/
theorem personal_info_empty_local_part (pw username o : String) (t : List Char)
    (common : List String) (dict : Option (List String)) :
    contains_personal_info username ⟨'@' :: t⟩ pw = true ∧
      "no_personal_info" ∈
        (analyze pw ⟨username, ⟨'@' :: t⟩, o, common, dict⟩).failed_checks := by
  have hemail : (⟨'@' :: t⟩ : String) ≠ "" := by
    intro h
    have hd : ('@' :: t) = ([] : List Char) := congrArg String.data h
    exact List.cons_ne_nil _ _ hd
  have hlp : (localPart ⟨'@' :: t⟩).data = [] := by
    simp [localPart, List.takeWhile_cons]
  have hpi : contains_personal_info username ⟨'@' :: t⟩ pw = true := by
    rw [contains_personal_info, if_neg (fun hand => hemail hand.2), List.any_eq_true]
    refine ⟨lowerStr (localPart ⟨'@' :: t⟩), ?_, ?_⟩
    · apply List.mem_append_right
      rw [if_neg hemail]
      exact List.mem_singleton.mpr rfl
    · rw [strIn]
      have hld : (lowerStr (localPart ⟨'@' :: t⟩)).data = [] := by
        show (localPart ⟨'@' :: t⟩).data.map Char.toLower = []
        rw [hlp]
        rfl
      rw [hld]
      exact containsSub_nil_left _
  refine ⟨hpi, ?_⟩
  rw [analyze_failed]
  apply List.mem_map.mpr
  refine ⟨("no_personal_info",
    !(contains_personal_info username ⟨'@' :: t⟩ pw)), ?_, rfl⟩
  apply List.mem_filter.mpr
  refine ⟨?_, by simp [hpi]⟩
  simp [criteriaList]

end PasswordComplexityChecker
